import Mathlib

/-!
Verification of the in-memory CRUD item service in `src/main.py`.

The service keeps a global list `items : list[Item]` and a counter `next_id`,
and exposes five endpoints (health, list, create, get-by-id, delete-by-id).
We embed the store as a `Store` structure, each handler as a pure function
`Store → ... → Store × Response`, and the request-level behaviour as a step
function over a `Request` type, with `Reachable` describing every state the
server can be in starting from the empty store.

Python strings are embedded as Lean `String`; `str.strip` / `str.lower` are
modelled on the character list (ASCII case folding, `Char.isWhitespace` for
the whitespace class), which matches the Python behaviour on all inputs the
claims mention. Python's unbounded `int` is embedded as `Int`.
-/

/-- `class Item(BaseModel)`: a stored record with a numeric id, a required
name, and an optional description. -/
structure Item where
  id : Int
  name : String
  description : Option String
  deriving DecidableEq, Repr

/-- `class ItemCreate(BaseModel)`: the creation request body, a required
name and an optional description. -/
structure ItemCreate where
  name : String
  description : Option String
  deriving DecidableEq, Repr

/-- `HTTPException(status_code=..., detail=...)` as raised by the handlers. -/
structure HTTPError where
  status_code : Int
  detail : String
  deriving DecidableEq, Repr

/-- The global mutable state of `main.py`: `items: list[Item] = []` and
`next_id = 1`. -/
structure Store where
  items : List Item
  next_id : Int
  deriving DecidableEq, Repr

/-- The initial state of the process: empty list, counter at 1. -/
def empty_store : Store := ⟨[], 1⟩

/-- `APP_ENV = os.getenv("APP_ENV", "dev")`: the environment label surfaced
by the health check; we model the default value. -/
def APP_ENV : String := "dev"

/-- Embedding of Python `str.strip()`: drop leading and trailing whitespace
characters. -/
def pyStrip (s : String) : String :=
  String.mk (((s.data.dropWhile Char.isWhitespace).reverse.dropWhile
    Char.isWhitespace).reverse)

/-- Embedding of Python `str.lower()` (ASCII case folding). -/
def pyLower (s : String) : String :=
  String.mk (s.data.map Char.toLower)

/-- `normalize_name(name)`: `return name.strip().lower()`. -/
def normalize_name (name : String) : String :=
  pyLower (pyStrip name)

/-- Normalization as the spec words it, written independently of the source
function: trim leading and trailing whitespace, then lowercase every
character. -/
def normalize_spec (name : String) : String :=
  String.mk (((name.data.dropWhile Char.isWhitespace).reverse.dropWhile
    Char.isWhitespace).reverse.map Char.toLower)

/-- `find_item(item_id)`: linear scan over the stored items, returning the
first item whose `id` equals `item_id`, else `None`. -/
def find_item (items : List Item) (item_id : Int) : Option Item :=
  match items with
  | [] => none
  | item :: rest => if item.id = item_id then some item else find_item rest item_id

/-- `ensure_unique_name(name)`: normalizes the candidate and scans the stored
items; returns the 400 duplicate-name error raised on the first item whose
normalized name matches, and `none` when the scan completes silently. -/
def ensure_unique_name (items : List Item) (name : String) : Option HTTPError :=
  match items with
  | [] => none
  | item :: rest =>
      if normalize_name item.name = normalize_name name then
        some ⟨400, "Item with this name already exists"⟩
      else
        ensure_unique_name rest name

/-- The observable outcome of one request, tagged by the kind of HTTP
response the handler produces (200 health JSON, 200 list, 201 created item,
200 single item, 204 no content, or an `HTTPException`). -/
inductive Response where
  | health (status env : String)
  | listing (items : List Item)
  | created (item : Item)
  | item (item : Item)
  | noContent
  | error (e : HTTPError)
  deriving DecidableEq, Repr

/-- `GET /health`: returns `{"status": "ok", "env": APP_ENV}`; reads nothing
from the store. -/
def health_check (s : Store) : Store × Response :=
  (s, Response.health "ok" APP_ENV)

/-- `GET /items`: returns the full list of stored items. -/
def get_items (s : Store) : Store × Response :=
  (s, Response.listing s.items)

/-- `POST /items`: checks name uniqueness, then builds the new item with the
current `next_id`, appends it, increments the counter, and returns the
created item (201). A duplicate name raises before any mutation. -/
def create_item (s : Store) (item : ItemCreate) : Store × Response :=
  match ensure_unique_name s.items item.name with
  | some e => (s, Response.error e)
  | none =>
      let new_item : Item := ⟨s.next_id, item.name, item.description⟩
      (⟨s.items ++ [new_item], s.next_id + 1⟩, Response.created new_item)

/-- `GET /items/{item_id}`: looks the item up by id; 404 when absent. -/
def get_item (s : Store) (item_id : Int) : Store × Response :=
  match find_item s.items item_id with
  | none => (s, Response.error ⟨404, "Item not found"⟩)
  | some item => (s, Response.item item)

/-- Embedding of `items.remove(item)`: removes the first element equal to
`item` (in `delete_item` it is only called with an element of the list). -/
def remove_first (items : List Item) (x : Item) : List Item :=
  match items with
  | [] => []
  | item :: rest => if item = x then rest else item :: remove_first rest x

/-- `DELETE /items/{item_id}`: looks the item up by id; 404 when absent,
otherwise removes it from the list and returns 204. -/
def delete_item (s : Store) (item_id : Int) : Store × Response :=
  match find_item s.items item_id with
  | none => (s, Response.error ⟨404, "Item not found"⟩)
  | some item => (⟨remove_first s.items item, s.next_id⟩, Response.noContent)

/-- One incoming HTTP request, one constructor per endpoint. -/
inductive Request where
  | health
  | listItems
  | create (item : ItemCreate)
  | get (item_id : Int)
  | delete (item_id : Int)
  deriving DecidableEq, Repr

/-- Dispatch of one request to its handler. -/
def step (s : Store) : Request → Store × Response
  | Request.health => health_check s
  | Request.listItems => get_items s
  | Request.create c => create_item s c
  | Request.get i => get_item s i
  | Request.delete i => delete_item s i

/-- Run a sequence of requests, collecting the responses in order. -/
def run (s : Store) : List Request → Store × List Response
  | [] => (s, [])
  | r :: rs => ((run (step s r).1 rs).1, (step s r).2 :: (run (step s r).1 rs).2)

/-- The states the server can reach from process start (empty store) by
handling any sequence of requests. -/
inductive Reachable : Store → Prop where
  | init : Reachable empty_store
  | step (r : Request) {s : Store} : Reachable s → Reachable (step s r).1

/-- The items a block of consecutive successful creates produces, ids
counting up from `start`: used to state the id-assignment claims. -/
def new_items (start : Int) : List ItemCreate → List Item
  | [] => []
  | c :: cs => ⟨start, c.name, c.description⟩ :: new_items (start + 1) cs

/-- The 201 responses a block of consecutive successful creates produces,
ids counting up from `start`. -/
def created_responses (start : Int) : List ItemCreate → List Response
  | [] => []
  | c :: cs => Response.created ⟨start, c.name, c.description⟩ ::
      created_responses (start + 1) cs

/-- The store invariant maintained by every handler: normalized names are
pairwise distinct, ids are pairwise distinct, and every id is below the
counter. -/
def StoreInv (s : Store) : Prop :=
  (s.items.map fun it => normalize_name it.name).Nodup ∧
  (s.items.map Item.id).Nodup ∧
  ∀ it ∈ s.items, it.id < s.next_id

/-! ### Characterizations of the scan helpers -/

lemma ensure_unique_name_eq_none {items : List Item} {name : String} :
    ensure_unique_name items name = none ↔
      ∀ it ∈ items, normalize_name it.name ≠ normalize_name name := by
  induction items with
  | nil => simp [ensure_unique_name]
  | cons a rest ih =>
      by_cases h : normalize_name a.name = normalize_name name
      · simp [ensure_unique_name, h]
      · simp [ensure_unique_name, h, ih]

lemma ensure_unique_name_eq_some {items : List Item} {name : String}
    (h : ∃ it ∈ items, normalize_name it.name = normalize_name name) :
    ensure_unique_name items name =
      some ⟨400, "Item with this name already exists"⟩ := by
  induction items with
  | nil => simp at h
  | cons a rest ih =>
      by_cases ha : normalize_name a.name = normalize_name name
      · simp [ensure_unique_name, ha]
      · simp only [List.mem_cons] at h
        obtain ⟨it, hit, hn⟩ := h
        rcases hit with rfl | hit
        · exact absurd hn ha
        · simp [ensure_unique_name, ha]
          exact ih ⟨it, hit, hn⟩

lemma find_item_eq_none {items : List Item} {i : Int} :
    find_item items i = none ↔ ∀ it ∈ items, it.id ≠ i := by
  induction items with
  | nil => simp [find_item]
  | cons a rest ih =>
      by_cases h : a.id = i
      · simp [find_item, h]
      · simp [find_item, h, ih]

lemma find_item_eq_some {items : List Item} {i : Int} {it : Item}
    (h : find_item items i = some it) : it.id = i ∧ it ∈ items := by
  induction items with
  | nil => simp [find_item] at h
  | cons a rest ih =>
      by_cases ha : a.id = i
      · simp [find_item, ha] at h
        subst h
        exact ⟨ha, List.mem_cons_self a rest⟩
      · simp [find_item, ha] at h
        obtain ⟨hid, hmem⟩ := ih h
        exact ⟨hid, List.mem_cons_of_mem a hmem⟩

/-- `find_item` returns the first match of the linear scan: the list splits
around the result, and everything before it misses the id. -/
lemma find_item_first {items : List Item} {i : Int} {it : Item} :
    find_item items i = some it ↔
      it.id = i ∧ ∃ l1 l2, items = l1 ++ it :: l2 ∧ ∀ x ∈ l1, x.id ≠ i := by
  induction items with
  | nil => simp [find_item]
  | cons a rest ih =>
      by_cases ha : a.id = i
      · constructor
        · intro h
          rw [find_item, if_pos ha] at h
          cases h
          exact ⟨ha, [], rest, rfl, by simp⟩
        · rintro ⟨hid, l1, l2, hsplit, hmiss⟩
          rw [find_item, if_pos ha]
          cases l1 with
          | nil =>
              simp only [List.nil_append, List.cons.injEq] at hsplit
              rw [hsplit.1]
          | cons b l1 =>
              simp only [List.cons_append, List.cons.injEq] at hsplit
              exact absurd (hsplit.1 ▸ ha) (hmiss b (List.mem_cons_self b l1))
      · rw [find_item, if_neg ha, ih]
        constructor
        · rintro ⟨hid, l1, l2, hsplit, hmiss⟩
          refine ⟨hid, a :: l1, l2, by simp [hsplit], ?_⟩
          intro x hx
          rcases List.mem_cons.mp hx with rfl | hx
          · exact ha
          · exact hmiss x hx
        · rintro ⟨hid, l1, l2, hsplit, hmiss⟩
          cases l1 with
          | nil =>
              simp only [List.nil_append, List.cons.injEq] at hsplit
              exact absurd (hsplit.1 ▸ hid) ha
          | cons b l1 =>
              simp only [List.cons_append, List.cons.injEq] at hsplit
              exact ⟨hid, l1, l2, hsplit.2,
                fun x hx => hmiss x (List.mem_cons_of_mem b hx)⟩

/-! ### Removal -/

lemma remove_first_sublist (l : List Item) (x : Item) :
    List.Sublist (remove_first l x) l := by
  induction l with
  | nil => simp [remove_first]
  | cons a rest ih =>
      by_cases h : a = x
      · rw [remove_first, if_pos h]
        exact List.sublist_cons_self a rest
      · rw [remove_first, if_neg h]
        exact List.Sublist.cons₂ a ih

/-- On a store with pairwise-distinct ids, removing the item `find_item`
returned is the same as filtering out the requested id. -/
lemma remove_first_eq_filter {l : List Item} {i : Int} {it : Item}
    (hnd : (l.map Item.id).Nodup) (hf : find_item l i = some it) :
    remove_first l it = l.filter fun x => decide (¬ x.id = i) := by
  induction l with
  | nil => simp [find_item] at hf
  | cons a rest ih =>
      rw [List.map_cons, List.nodup_cons] at hnd
      by_cases ha : a.id = i
      · rw [find_item, if_pos ha] at hf
        cases hf
        rw [remove_first, if_pos rfl, List.filter_cons_of_neg (by simp [ha]),
          List.filter_eq_self.mpr]
        intro x hx
        simp only [decide_eq_true_eq]
        intro hxi
        exact hnd.1 (ha ▸ hxi ▸ List.mem_map_of_mem Item.id hx)
      · rw [find_item, if_neg ha] at hf
        have hne : ¬ a = it := by
          intro h
          exact ha (h ▸ (find_item_eq_some hf).1)
        rw [remove_first, if_neg hne, List.filter_cons_of_pos (by simp [ha]),
          ih hnd.2 hf]

lemma find_item_remove {l : List Item} {i : Int} {it : Item}
    (hnd : (l.map Item.id).Nodup) (hf : find_item l i = some it) :
    find_item (remove_first l it) i = none := by
  rw [remove_first_eq_filter hnd hf, find_item_eq_none]
  intro x hx
  have hm := List.mem_filter.mp hx
  simpa using hm.2

/-! ### Handler characterizations -/

lemma get_item_fst (s : Store) (i : Int) : (get_item s i).1 = s := by
  unfold get_item
  cases find_item s.items i <;> rfl

lemma delete_item_next_id (s : Store) (i : Int) :
    (delete_item s i).1.next_id = s.next_id := by
  unfold delete_item
  cases find_item s.items i <;> rfl

lemma create_item_of_dup {s : Store} {c : ItemCreate}
    (h : ∃ it ∈ s.items, normalize_name it.name = normalize_name c.name) :
    create_item s c =
      (s, Response.error ⟨400, "Item with this name already exists"⟩) := by
  unfold create_item
  rw [ensure_unique_name_eq_some h]

lemma create_item_of_fresh {s : Store} {c : ItemCreate}
    (h : ∀ it ∈ s.items, normalize_name it.name ≠ normalize_name c.name) :
    create_item s c =
      (⟨s.items ++ [⟨s.next_id, c.name, c.description⟩], s.next_id + 1⟩,
        Response.created ⟨s.next_id, c.name, c.description⟩) := by
  unfold create_item
  rw [ensure_unique_name_eq_none.mpr h]

lemma create_item_created {s : Store} {c : ItemCreate} {it : Item}
    (h : (create_item s c).2 = Response.created it) :
    it = ⟨s.next_id, c.name, c.description⟩ ∧
      (create_item s c).1 = ⟨s.items ++ [it], s.next_id + 1⟩ := by
  by_cases hd : ∃ x ∈ s.items, normalize_name x.name = normalize_name c.name
  · rw [create_item_of_dup hd] at h
    simp at h
  · push_neg at hd
    rw [create_item_of_fresh hd] at h ⊢
    simp only [Response.created.injEq] at h
    subst h
    exact ⟨rfl, rfl⟩

lemma get_item_snd_ne_created (s : Store) (i : Int) (it : Item) :
    (get_item s i).2 ≠ Response.created it := by
  unfold get_item
  cases find_item s.items i <;> simp

lemma delete_item_snd_ne_created (s : Store) (i : Int) (it : Item) :
    (delete_item s i).2 ≠ Response.created it := by
  unfold delete_item
  cases find_item s.items i <;> simp

/-! ### Step-level facts -/

lemma step_next_id_le (s : Store) (r : Request) :
    s.next_id ≤ (step s r).1.next_id := by
  cases r with
  | health => exact le_refl _
  | listItems => exact le_refl _
  | create c =>
      show s.next_id ≤ (create_item s c).1.next_id
      by_cases hd : ∃ x ∈ s.items, normalize_name x.name = normalize_name c.name
      · rw [create_item_of_dup hd]
      · push_neg at hd
        rw [create_item_of_fresh hd]
        exact Int.le_of_lt (Int.lt_succ _)
  | get i => exact le_of_eq (congrArg Store.next_id (get_item_fst s i)).symm
  | delete i => exact le_of_eq (delete_item_next_id s i).symm

lemma step_created_id {s : Store} {r : Request} {it : Item}
    (h : (step s r).2 = Response.created it) : it.id = s.next_id := by
  cases r with
  | health => exact absurd h (by simp [step, health_check])
  | listItems => exact absurd h (by simp [step, get_items])
  | create c =>
      have hc : (create_item s c).2 = Response.created it := h
      rw [(create_item_created hc).1]
  | get i => exact absurd h (get_item_snd_ne_created s i it)
  | delete i => exact absurd h (delete_item_snd_ne_created s i it)

/-- Every 201 response produced anywhere in a run carries an id at least the
counter value the run started from. -/
lemma run_created_id_ge (reqs : List Request) :
    ∀ (s : Store) (resp : Response) (it : Item),
      resp ∈ (run s reqs).2 → resp = Response.created it →
        s.next_id ≤ it.id := by
  induction reqs with
  | nil =>
      intro s resp it h
      simp [run] at h
  | cons r rs ih =>
      intro s resp it h heq
      rw [run] at h
      simp only [List.mem_cons] at h
      rcases h with rfl | h
      · exact le_of_eq (step_created_id heq).symm
      · exact le_trans (step_next_id_le s r) (ih (step s r).1 resp it h heq)

/-! ### The reachability invariant -/

lemma storeInv_empty : StoreInv empty_store := by
  refine ⟨?_, ?_, ?_⟩ <;> simp [empty_store]

lemma storeInv_step {s : Store} (hs : StoreInv s) (r : Request) :
    StoreInv (step s r).1 := by
  obtain ⟨hnames, hids, hlt⟩ := hs
  cases r with
  | health => exact ⟨hnames, hids, hlt⟩
  | listItems => exact ⟨hnames, hids, hlt⟩
  | get i =>
      rw [show (step s (Request.get i)).1 = s from get_item_fst s i]
      exact ⟨hnames, hids, hlt⟩
  | create c =>
      show StoreInv (create_item s c).1
      by_cases hd : ∃ x ∈ s.items, normalize_name x.name = normalize_name c.name
      · rw [create_item_of_dup hd]
        exact ⟨hnames, hids, hlt⟩
      · push_neg at hd
        rw [create_item_of_fresh hd]
        refine ⟨?_, ?_, ?_⟩
        · rw [List.map_append]
          refine List.Nodup.append hnames (by simp) ?_
          intro x hx hx2
          simp only [List.map_cons, List.map_nil, List.mem_singleton] at hx2
          subst hx2
          obtain ⟨y, hy, hyx⟩ := List.mem_map.mp hx
          exact hd y hy hyx
        · rw [List.map_append]
          refine List.Nodup.append hids (by simp) ?_
          intro x hx hx2
          simp only [List.map_cons, List.map_nil, List.mem_singleton] at hx2
          subst hx2
          obtain ⟨y, hy, hyx⟩ := List.mem_map.mp hx
          exact absurd hyx (Int.ne_of_lt (hlt y hy))
        · intro it hit
          rcases List.mem_append.mp hit with hold | hnew
          · exact lt_trans (hlt it hold) (Int.lt_succ _)
          · simp only [List.mem_singleton] at hnew
            subst hnew
            exact Int.lt_succ _
  | delete i =>
      show StoreInv (delete_item s i).1
      unfold delete_item
      cases hf : find_item s.items i with
      | none => exact ⟨hnames, hids, hlt⟩
      | some it =>
          have hsub := remove_first_sublist s.items it
          refine ⟨?_, ?_, ?_⟩
          · exact (hsub.map _).nodup hnames
          · exact (hsub.map _).nodup hids
          · intro x hx
            exact hlt x (hsub.mem hx)

lemma reachable_storeInv {s : Store} (h : Reachable s) : StoreInv s := by
  induction h with
  | init => exact storeInv_empty
  | step r _ ih => exact storeInv_step ih r

/-- Running a block of creates whose normalized names are fresh for the
current store and pairwise distinct: every create succeeds, the new items are
appended in order, and the assigned ids count up from the current counter. -/
lemma run_creates (cs : List ItemCreate) :
    ∀ s : Store,
      (∀ c ∈ cs, ∀ it ∈ s.items,
        normalize_name it.name ≠ normalize_name c.name) →
      (cs.map fun c => normalize_name c.name).Nodup →
      run s (cs.map Request.create) =
        (⟨s.items ++ new_items s.next_id cs, s.next_id + cs.length⟩,
          created_responses s.next_id cs) := by
  induction cs with
  | nil =>
      intro s _ _
      simp [run, new_items, created_responses]
  | cons c cs ih =>
      intro s hfresh hnodup
      rw [List.map_cons, run]
      simp only [step]
      have hc : ∀ it ∈ s.items,
          normalize_name it.name ≠ normalize_name c.name :=
        fun it hit => hfresh c (List.mem_cons_self c cs) it hit
      rw [create_item_of_fresh hc]
      dsimp only
      rw [List.map_cons, List.nodup_cons] at hnodup
      have hfresh2 : ∀ c2 ∈ cs,
          ∀ it ∈ s.items ++ [(⟨s.next_id, c.name, c.description⟩ : Item)],
            normalize_name it.name ≠ normalize_name c2.name := by
        intro c2 hc2 it hit
        rcases List.mem_append.mp hit with hold | hnew
        · exact hfresh c2 (List.mem_cons_of_mem c hc2) it hold
        · simp only [List.mem_singleton] at hnew
          subst hnew
          intro heq
          exact hnodup.1 (heq ▸ List.mem_map_of_mem _ hc2)
      rw [ih ⟨s.items ++ [(⟨s.next_id, c.name, c.description⟩ : Item)],
        s.next_id + 1⟩ hfresh2 hnodup.2]
      refine Prod.ext ?_ rfl
      simp only [new_items, List.append_assoc, List.singleton_append,
        List.length_cons]
      refine congrArg (Store.mk _) ?_
      push_cast
      ring

/-- A name all of whose characters are whitespace normalizes to the empty
string. -/
lemma normalize_name_whitespace {s : String}
    (h : ∀ ch ∈ s.data, ch.isWhitespace) : normalize_name s = "" := by
  unfold normalize_name pyStrip pyLower
  have h1 : s.data.dropWhile Char.isWhitespace = [] := by
    rw [List.dropWhile_eq_nil_iff]
    exact h
  rw [h1]
  rfl

lemma new_items_map_id (cs : List ItemCreate) :
    ∀ start : Int, (new_items start cs).map Item.id =
      (List.range cs.length).map fun j => start + Int.ofNat j := by
  induction cs with
  | nil => intro start; simp [new_items]
  | cons c cs ih =>
      intro start
      rw [new_items, List.map_cons, List.length_cons, List.range_succ_eq_map,
        List.map_cons, List.map_map, ih (start + 1)]
      congr 1
      · simp
      · refine List.map_congr_left ?_
        intro j hj
        simp only [Function.comp_apply, Nat.succ_eq_add_one,
          Int.ofNat_eq_coe]
        push_cast
        ring

/-! ## Claims -/

/-- C1: starting from the empty store, any sequence of creates whose names
are pairwise non-duplicate after normalization all succeed; the n-th create
is answered 201 with assigned id n, and the resulting store holds exactly
those items with ids 1, 2, ..., n in order — no gaps, no repeats. -/
theorem claim1_create_ids (cs : List ItemCreate)
    (hnodup : (cs.map fun c => normalize_name c.name).Nodup) :
    (run empty_store (cs.map Request.create)).2 = created_responses 1 cs ∧
    (run empty_store (cs.map Request.create)).1.items = new_items 1 cs ∧
    (run empty_store (cs.map Request.create)).1.items.map Item.id =
      (List.range cs.length).map fun j => 1 + Int.ofNat j := by
  have h := run_creates cs empty_store
    (by intro c _ it hit; simp [empty_store] at hit) hnodup
  rw [h]
  refine ⟨rfl, by simp [empty_store], ?_⟩
  show (([] : List Item) ++ new_items 1 cs).map Item.id = _
  rw [List.nil_append, new_items_map_id cs 1]

/-- C1 witness: two fresh names from the empty store. -/
theorem claim1_witness :
    (run empty_store ([⟨"Pen", none⟩, ⟨"Book", none⟩].map Request.create)).2 =
      created_responses 1 [⟨"Pen", none⟩, ⟨"Book", none⟩] :=
  (claim1_create_ids [⟨"Pen", none⟩, ⟨"Book", none⟩] (by decide)).1

/-- C2: in every reachable store, no two items have names that normalize to
the same value, and handling any further request preserves this. -/
theorem claim2_unique_names (s : Store) (h : Reachable s) :
    (s.items.map fun it => normalize_name it.name).Nodup ∧
    ∀ r : Request,
      ((step s r).1.items.map fun it => normalize_name it.name).Nodup :=
  ⟨(reachable_storeInv h).1,
    fun r => (storeInv_step (reachable_storeInv h) r).1⟩

/-- C2 witness: the store reached by one successful create. -/
theorem claim2_witness :
    ((step empty_store (Request.create ⟨"Pen", none⟩)).1.items.map
      fun it => normalize_name it.name).Nodup :=
  (claim2_unique_names (step empty_store (Request.create ⟨"Pen", none⟩)).1
    (Reachable.step (Request.create ⟨"Pen", none⟩) Reachable.init)).1

/-- C3: create fails with 400 "Item with this name already exists" exactly
when some existing item's normalized name equals the candidate's; on failure
the whole store (items and counter) is unchanged, and on success exactly one
item is appended and the counter is incremented by one. -/
theorem claim3_create_duplicate (s : Store) (c : ItemCreate) :
    ((create_item s c).2 =
        Response.error ⟨400, "Item with this name already exists"⟩ ↔
      ∃ it ∈ s.items, normalize_name it.name = normalize_name c.name) ∧
    ((∃ it ∈ s.items, normalize_name it.name = normalize_name c.name) →
      create_item s c =
        (s, Response.error ⟨400, "Item with this name already exists"⟩)) ∧
    ((∀ it ∈ s.items, normalize_name it.name ≠ normalize_name c.name) →
      (create_item s c).1.items =
          s.items ++ [⟨s.next_id, c.name, c.description⟩] ∧
        (create_item s c).1.next_id = s.next_id + 1) := by
  refine ⟨⟨?_, ?_⟩, fun h => create_item_of_dup h, fun h => ?_⟩
  · intro h
    by_cases hd : ∃ it ∈ s.items, normalize_name it.name = normalize_name c.name
    · exact hd
    · push_neg at hd
      rw [create_item_of_fresh hd] at h
      simp at h
  · intro h
    rw [create_item_of_dup h]
  · rw [create_item_of_fresh h]
    exact ⟨rfl, rfl⟩

/-- C3 witness: a duplicate (after normalization) name is rejected and the
store is left untouched. -/
theorem claim3_witness :
    create_item ⟨[⟨1, " pen ", none⟩], 2⟩ ⟨"Pen", none⟩ =
      (⟨[⟨1, " pen ", none⟩], 2⟩,
        Response.error ⟨400, "Item with this name already exists"⟩) :=
  (claim3_create_duplicate ⟨[⟨1, " pen ", none⟩], 2⟩ ⟨"Pen", none⟩).2.1
    ⟨⟨1, " pen ", none⟩, by simp, by decide⟩

/-- C4: normalization is exactly trim-then-lowercase and is used only for
comparison: the created item's stored and echoed name is the input name
verbatim, and creating "Widget" after " widget " fails with the duplicate
error. -/
theorem claim4_normalization :
    (∀ n : String, normalize_name n = normalize_spec n) ∧
    (∀ (s : Store) (c : ItemCreate) (it : Item),
      (create_item s c).2 = Response.created it →
        it.name = c.name ∧ (create_item s c).1.items = s.items ++ [it]) ∧
    (create_item (create_item empty_store ⟨" widget ", none⟩).1
        ⟨"Widget", none⟩).2 =
      Response.error ⟨400, "Item with this name already exists"⟩ := by
  refine ⟨fun n => rfl, ?_, by decide⟩
  intro s c it h
  obtain ⟨h1, h2⟩ := create_item_created h
  subst h1
  exact ⟨rfl, by rw [h2]⟩

/-- C4 witness: a concrete successful create stores the name verbatim. -/
theorem claim4_witness :
    Item.name ⟨1, "Pen", none⟩ = "Pen" ∧
    (create_item empty_store ⟨"Pen", none⟩).1.items =
      empty_store.items ++ [⟨1, "Pen", none⟩] :=
  claim4_normalization.2.1 empty_store ⟨"Pen", none⟩ ⟨1, "Pen", none⟩
    (by decide)

/-- C5: get-by-id leaves the store untouched; when some stored item has the
requested id it answers 200 with the first such item in the sequence, and
when none does it answers 404 "Item not found". -/
theorem claim5_get_by_id (s : Store) (i : Int) :
    (get_item s i).1 = s ∧
    (∀ it : Item, find_item s.items i = some it →
      (get_item s i).2 = Response.item it ∧ it.id = i ∧
        ∃ l1 l2, s.items = l1 ++ it :: l2 ∧ ∀ x ∈ l1, x.id ≠ i) ∧
    ((∀ it ∈ s.items, it.id ≠ i) →
      (get_item s i).2 = Response.error ⟨404, "Item not found"⟩) := by
  refine ⟨get_item_fst s i, ?_, ?_⟩
  · intro it h
    have hfirst := find_item_first.mp h
    refine ⟨?_, hfirst⟩
    unfold get_item
    rw [h]
  · intro h
    unfold get_item
    rw [find_item_eq_none.mpr h]

/-- C5 witness: a missing id on the empty store is a 404. -/
theorem claim5_witness :
    (get_item empty_store 1).2 = Response.error ⟨404, "Item not found"⟩ :=
  (claim5_get_by_id empty_store 1).2.2 (by decide)

/-- C6: deleting an id no stored item has fails with 404 "Item not found"
and leaves the store (items and counter) unchanged. -/
theorem claim6_delete_missing (s : Store) (i : Int)
    (h : ∀ it ∈ s.items, it.id ≠ i) :
    delete_item s i = (s, Response.error ⟨404, "Item not found"⟩) := by
  unfold delete_item
  rw [find_item_eq_none.mpr h]

/-- C6 witness: deleting id 9999 on the empty store. -/
theorem claim6_witness :
    delete_item empty_store 9999 =
      (empty_store, Response.error ⟨404, "Item not found"⟩) :=
  claim6_delete_missing empty_store 9999 (by decide)

/-- C7: in a reachable store, after a successful delete of an id, getting
that id answers 404, and no create performed later in any continuation of
the run is ever assigned that id again. -/
theorem claim7_no_id_reuse (s : Store) (h : Reachable s) (i : Int)
    (hdel : (delete_item s i).2 = Response.noContent) :
    (get_item (delete_item s i).1 i).2 =
        Response.error ⟨404, "Item not found"⟩ ∧
    ∀ (reqs : List Request) (resp : Response) (it : Item),
      resp ∈ (run (delete_item s i).1 reqs).2 →
        resp = Response.created it → it.id ≠ i := by
  obtain ⟨-, hids, hlt⟩ := reachable_storeInv h
  cases hf : find_item s.items i with
  | none =>
      unfold delete_item at hdel
      rw [hf] at hdel
      simp at hdel
  | some it0 =>
      have hdefs : (delete_item s i).1 =
          ⟨remove_first s.items it0, s.next_id⟩ := by
        unfold delete_item
        rw [hf]
      have hsome := find_item_eq_some hf
      have hi_lt : i < s.next_id := hsome.1 ▸ hlt it0 hsome.2
      constructor
      · rw [hdefs]
        unfold get_item
        have hnone := find_item_remove hids hf
        dsimp only at hnone ⊢
        rw [hnone]
      · intro reqs resp it hmem heq hit
        have hge := run_created_id_ge reqs (delete_item s i).1 resp it hmem heq
        rw [hdefs] at hge
        dsimp only at hge
        rw [hit] at hge
        exact absurd hge (not_le.mpr hi_lt)

/-- C7 witness: create "Pen" (id 1), delete it, then get id 1 is a 404. -/
theorem claim7_witness :
    (get_item (delete_item
        (step empty_store (Request.create ⟨"Pen", none⟩)).1 1).1 1).2 =
      Response.error ⟨404, "Item not found"⟩ :=
  (claim7_no_id_reuse (step empty_store (Request.create ⟨"Pen", none⟩)).1
    (Reachable.step (Request.create ⟨"Pen", none⟩) Reachable.init) 1
    (by decide)).1

/-- C8: listing always succeeds, returning the full current item sequence
in insertion order (a successful create appends as the new last element);
on the empty store it returns the empty array. -/
theorem claim8_list (s : Store) :
    get_items s = (s, Response.listing s.items) ∧
    (get_items empty_store).2 = Response.listing [] ∧
    ∀ (c : ItemCreate) (it : Item),
      (create_item s c).2 = Response.created it →
        (create_item s c).1.items = s.items ++ [it] := by
  refine ⟨rfl, rfl, ?_⟩
  intro c it hc
  rw [(create_item_created hc).2]

/-- C8 witness: a concrete create appends its item at the end. -/
theorem claim8_witness :
    (create_item empty_store ⟨"Pen", none⟩).1.items =
      empty_store.items ++ [⟨1, "Pen", none⟩] :=
  (claim8_list empty_store).2.2 ⟨"Pen", none⟩ ⟨1, "Pen", none⟩ (by decide)

/-- C9: on a reachable store, delete never changes the counter, and a
successful delete removes exactly the items carrying the requested id (of
which there is one), keeping every other item and their relative order. -/
theorem claim9_delete_frame (s : Store) (h : Reachable s) (i : Int) :
    (delete_item s i).1.next_id = s.next_id ∧
    ((delete_item s i).2 = Response.noContent →
      (delete_item s i).1.items =
        s.items.filter fun x => decide (¬ x.id = i)) := by
  refine ⟨delete_item_next_id s i, ?_⟩
  intro hdel
  obtain ⟨-, hids, -⟩ := reachable_storeInv h
  cases hf : find_item s.items i with
  | none =>
      unfold delete_item at hdel
      rw [hf] at hdel
      simp at hdel
  | some it0 =>
      have hdefs : (delete_item s i).1 =
          ⟨remove_first s.items it0, s.next_id⟩ := by
        unfold delete_item
        rw [hf]
      rw [hdefs]
      exact remove_first_eq_filter hids hf

/-- C9 witness: deleting id 1 from the store holding only "Pen". -/
theorem claim9_witness :
    (delete_item (step empty_store (Request.create ⟨"Pen", none⟩)).1 1).1.items
      = (step empty_store (Request.create ⟨"Pen", none⟩)).1.items.filter
          fun x => decide (¬ x.id = 1) :=
  (claim9_delete_frame (step empty_store (Request.create ⟨"Pen", none⟩)).1
    (Reachable.step (Request.create ⟨"Pen", none⟩) Reachable.init) 1).2
    (by decide)

/-- C10: create validates nothing about the name beyond the duplicate check
(the outcome is always either the 400 duplicate error or a 201 storing the
name verbatim); a whitespace-only or empty name normalizes to the empty
string, so once an item whose name normalizes to "" exists, creating any
other such name fails with the duplicate error. -/
theorem claim10_whitespace_names (s : Store) (c : ItemCreate) :
    ((create_item s c).2 =
        Response.error ⟨400, "Item with this name already exists"⟩ ∨
      (create_item s c).2 =
        Response.created ⟨s.next_id, c.name, c.description⟩) ∧
    ((∀ ch ∈ c.name.data, ch.isWhitespace) → normalize_name c.name = "") ∧
    ((∃ it ∈ s.items, normalize_name it.name = "") →
      normalize_name c.name = "" →
      (create_item s c).2 =
        Response.error ⟨400, "Item with this name already exists"⟩) := by
  refine ⟨?_, fun hws => normalize_name_whitespace hws, ?_⟩
  · by_cases hd : ∃ it ∈ s.items,
        normalize_name it.name = normalize_name c.name
    · exact Or.inl (by rw [create_item_of_dup hd])
    · push_neg at hd
      exact Or.inr (by rw [create_item_of_fresh hd])
  · rintro ⟨it, hit, hnit⟩ hnc
    have : create_item s c =
        (s, Response.error ⟨400, "Item with this name already exists"⟩) :=
      create_item_of_dup ⟨it, hit, by rw [hnit, hnc]⟩
    rw [this]

/-- C10 witness: an empty name duplicates a whitespace-only one. -/
theorem claim10_witness :
    (create_item ⟨[⟨1, "   ", none⟩], 2⟩ ⟨"", none⟩).2 =
      Response.error ⟨400, "Item with this name already exists"⟩ :=
  (claim10_whitespace_names ⟨[⟨1, "   ", none⟩], 2⟩ ⟨"", none⟩).2.2
    ⟨⟨1, "   ", none⟩, by simp, by decide⟩ (by decide)
